import Mathlib

/-!
Verification of the Telegram contacts conversion tool (src/cli.py).
Python strings are modelled as lists of characters; the Python method
str.strip is modelled by dropping whitespace characters from both ends.
-/

namespace TgContacts

/-- Characters treated as whitespace by the Python strip method (ASCII subset). -/
def isSpace (c : Char) : Bool :=
  c == ' ' || c == '\t' || c == '\n' || c == '\r' || c == '\x0b' || c == '\x0c'

/-- A Python string, modelled as a list of characters. -/
abbrev Str := List Char

/-- Drop leading whitespace. -/
def lstrip (s : Str) : Str := s.dropWhile isSpace

/-- Drop trailing whitespace. -/
def rstrip (s : Str) : Str := (s.reverse.dropWhile isSpace).reverse

/-- The Python strip method: drop whitespace from both ends. -/
def strip (s : Str) : Str := rstrip (lstrip s)

/-- The Python startswith method. -/
def startswith (pre s : Str) : Bool := List.isPrefixOf pre s

/-- The COUNTRY_CODES table of cli.py, lines 32 to 34. -/
def COUNTRY_CODES : List (Str × Str) := [("KE".data, "254".data)]

/-- Lookup of the optional country hint in COUNTRY_CODES. -/
def lookupCC (country : Option Str) : Option Str :=
  match country with
  | none => none
  | some c => COUNTRY_CODES.lookup c

/-- Country rule (a) guard, cli.py line 51: leading zero and length at least 9. -/
def guardA (p : Str) : Bool := startswith ['0'] p && decide (9 ≤ p.length)

/-- Country rule (b) guard, cli.py line 55: bare country code, no leading plus. -/
def guardB (cc p : Str) : Bool := startswith cc p && !(startswith ['+'] p)

/-- Country rule (c) guard, cli.py line 59: leading 7 and length at least 9. -/
def guardC (p : Str) : Bool := startswith ['7'] p && decide (9 ≤ p.length)

/-- The step of cli.py lines 44 to 46: a leading 00 becomes +, with its flag. -/
def step00 (p : Str) : Str × Bool :=
  if startswith ['0', '0'] p then ('+' :: p.drop 2, true) else (p, false)

/-- The country-specific branch of normalize_phone, cli.py lines 48 to 61. -/
def countryStep (p : Str) (country : Option Str) (n00 : Bool) : Str × Bool × Bool :=
  match lookupCC country with
  | none => (p, n00, false)
  | some cc =>
    if guardA p then ('+' :: (cc ++ p.drop 1), n00, true)
    else if guardB cc p then ('+' :: p, n00, true)
    else if guardC p then ('+' :: (cc ++ p), n00, true)
    else (p, n00, false)

/-- normalize_phone from cli.py, lines 36 to 63. -/
def normalize_phone (phone : Str) (country : Option Str) : Str × Bool × Bool :=
  if phone = [] then (phone, false, false)
  else
    let s := strip phone
    let t := step00 s
    countryStep t.1 country t.2

/-- True when no country rule applies to the string p under the given hint. -/
def noCountryRule (country : Option Str) (p : Str) : Bool :=
  match lookupCC country with
  | none => true
  | some cc => !(guardA p || guardB cc p || guardC p)

/-- Statement that no call to normalize_phone ever reports both flags true.
This is the negation of the both-flags-can-be-true part of the ordering
claim about the 00 rule and the country rules. -/
def NeverBothFlags : Prop :=
  ∀ (p : Str) (c : Option Str),
    ¬((normalize_phone p c).2.1 = true ∧ (normalize_phone p c).2.2 = true)

/-- A list whose first character, when present, is not whitespace. -/
def NoHeadSpace (l : Str) : Prop := ∀ a, l.head? = some a → isSpace a = false

/-- A list whose last character, when present, is not whitespace. -/
def NoLastSpace (l : Str) : Prop := NoHeadSpace l.reverse

/-- One record of the contacts list: the three optional string fields read
by cli.py lines 127 to 129. -/
structure RawContact where
  first_name : Option Str
  last_name : Option Str
  phone_number : Option Str
deriving DecidableEq

/-- The value of the name-mode command line choice. -/
inductive NameMode where
  | first
  | last
  | both
deriving DecidableEq

/-- The value of the format command line choice. -/
inductive Format where
  | csv
  | vcf
deriving DecidableEq

/-- The options bundle handed to the transformation loop: name mode, optional
country hint, whether dedupe equals phone, and the output format. -/
structure Options where
  name_mode : NameMode
  country : Option Str
  dedupe : Bool
  format : Format
deriving DecidableEq

/-- The mutable run data of cli.py lines 104 to 109 together with the records
sent to the output sink (out is the list of CSV data rows, or of VCF blocks). -/
structure RunState where
  seen : List Str
  written : Nat
  dupes : Nat
  normalized_00 : Nat
  normalized_country : Nat
  out : List (List Str)
deriving DecidableEq

/-- The state before the loop starts. -/
def initState : RunState := ⟨[], 0, 0, 0, 0, []⟩

/-- The dict get with empty-string default used at cli.py lines 127 to 129. -/
def orEmpty (v : Option Str) : Str := v.getD []

/-- First name of a contact, defaulting to the empty string. -/
def rawFirst (c : RawContact) : Str := orEmpty c.first_name

/-- Last name of a contact, defaulting to the empty string. -/
def rawLast (c : RawContact) : Str := orEmpty c.last_name

/-- Raw phone of a contact, defaulting to the empty string. -/
def rawPhone (c : RawContact) : Str := orEmpty c.phone_number

/-- The normalization result for one contact under the run options. -/
def normOf (o : Options) (c : RawContact) : Str × Bool × Bool :=
  normalize_phone (rawPhone c) o.country

/-- The CSV header row built at cli.py lines 115 to 120. -/
def csvHeader (m : NameMode) : List Str :=
  (if m = NameMode.first ∨ m = NameMode.both then ["First Name".data] else []) ++
    (if m = NameMode.last ∨ m = NameMode.both then ["Last Name".data] else []) ++
    ["Phone".data]

/-- A CSV data row, cli.py lines 142 to 147. -/
def csvRow (m : NameMode) (first last phone : Str) : List Str :=
  (if m = NameMode.first ∨ m = NameMode.both then [first] else []) ++
    (if m = NameMode.last ∨ m = NameMode.both then [last] else []) ++
    [phone]

/-- The fixed text that precedes the phone in the TEL line of a VCF block. -/
def telHead : Str := "TEL;TYPE=CELL:".data

/-- One VCF block as written by cli.py lines 151 to 156, as a list of lines. -/
def vcfBlock (first last phone : Str) : List Str :=
  ["BEGIN:VCARD".data,
   "VERSION:3.0".data,
   "N:".data ++ last ++ ";".data ++ first ++ ";;;".data,
   strip ("FN:".data ++ first ++ ' ' :: last),
   telHead ++ phone,
   "END:VCARD".data]

/-- The record emitted for one surviving contact, by format. -/
def emitRecord (o : Options) (first last phone : Str) : List Str :=
  match o.format with
  | Format.csv => csvRow o.name_mode first last phone
  | Format.vcf => vcfBlock first last phone

/-- Reads back the normalized phone from an emitted record: the final CSV
column, or the text after the TEL line head of a VCF block. -/
def phoneOfRecord (fmt : Format) (r : List Str) : Str :=
  match fmt with
  | Format.csv => r.getLast?.getD []
  | Format.vcf => (r[4]?.getD []).drop telHead.length

/-- The two flag counters incremented at cli.py lines 132 to 133. -/
def bumpCounters (o : Options) (st : RunState) (c : RawContact) : RunState :=
  { st with
    normalized_00 := st.normalized_00 + (if (normOf o c).2.1 then 1 else 0),
    normalized_country := st.normalized_country + (if (normOf o c).2.2 then 1 else 0) }

/-- The body of the loop of cli.py lines 126 to 158 for one contact. -/
def processContact (o : Options) (st : RunState) (c : RawContact) : RunState :=
  if o.dedupe then
    if (normOf o c).1 ∈ st.seen then
      { bumpCounters o st c with dupes := st.dupes + 1 }
    else
      { bumpCounters o st c with
        seen := (normOf o c).1 :: st.seen,
        out := st.out ++ [emitRecord o (rawFirst c) (rawLast c) (normOf o c).1],
        written := st.written + 1 }
  else
    { bumpCounters o st c with
      out := st.out ++ [emitRecord o (rawFirst c) (rawLast c) (normOf o c).1],
      written := st.written + 1 }

/-- The whole transformation loop over the input contact list. -/
def runTransform (o : Options) (cs : List RawContact) : RunState :=
  cs.foldl (processContact o) initState

/-- The full CSV output: the header row once, then the emitted data rows. -/
def csvOutput (o : Options) (cs : List RawContact) : List (List Str) :=
  csvHeader o.name_mode :: (runTransform o cs).out

/-- Count of name columns the name mode enables. -/
def enabledNameCols (m : NameMode) : Nat :=
  match m with
  | NameMode.both => 2
  | _ => 1

/-- A JSON value, for the structural check of cli.py lines 96 to 100. -/
inductive Json where
  | jnull
  | jbool (b : Bool)
  | jnum (n : Int)
  | jstr (s : Str)
  | jarr (elems : List Json)
  | jobj (fields : List (Str × Json))

/-- Key access on a JSON value: some value only for an object holding the key.
A missing key raises KeyError in cli.py, a non-object raises TypeError; both
stop the program inside the lookup of line 97, before any output is opened. -/
def jget (j : Json) (k : Str) : Option Json :=
  match j with
  | Json.jobj fields => fields.lookup k
  | _ => none

/-- The lookup data contacts list of cli.py line 97. -/
def contactsList (data : Json) : Option Json :=
  (jget data ("contacts".data)).bind (fun c => jget c ("list".data))

/-- A string field of a contact object, when present with a string value. -/
def asStrField (j : Json) (k : Str) : Option Str :=
  match jget j k with
  | some (Json.jstr s) => some s
  | _ => none

/-- One JSON element of the contacts list read as a RawContact. -/
def toRaw (j : Json) : RawContact :=
  { first_name := asStrField j ("first_name".data),
    last_name := asStrField j ("last_name".data),
    phone_number := asStrField j ("phone_number".data) }

/-- The contacts of the looked-up list value. The modelled input shape
(section 6 of the specification) has an array there. -/
def contactsOf : Json → List RawContact
  | Json.jarr l => l.map toRaw
  | _ => []

/-- Outcome of a run of main: a fatal stop before the output file exists, or a
completed run with its output records and final counters. -/
inductive MainOutcome where
  | fatal
  | completed (out : List (List Str)) (summary : RunState)

/-- main from cli.py after argument handling: the structural check of lines
96 to 100 runs first; only when it succeeds is the output produced
(the file is opened at lines 112 and 124, after the check). -/
def mainModel (o : Options) (data : Json) : MainOutcome :=
  match contactsList data with
  | none => MainOutcome.fatal
  | some v =>
    match o.format with
    | Format.csv => MainOutcome.completed (csvOutput o (contactsOf v)) (runTransform o (contactsOf v))
    | Format.vcf => MainOutcome.completed ((runTransform o (contactsOf v)).out) (runTransform o (contactsOf v))

/-- Sample options: dedupe on, CSV format, no country hint. -/
def oDedupe : Options := ⟨NameMode.both, none, true, Format.csv⟩

/-- Sample options: dedupe off, CSV format, no country hint. -/
def oPlain : Options := ⟨NameMode.both, none, false, Format.csv⟩

/-- A contact with no fields at all. -/
def cEmpty : RawContact := ⟨none, none, none⟩

/-- A sample contact with a Kenyan phone written with a leading zero. -/
def cKenya : RawContact := ⟨some ("Jo".data), some ("Doe".data), some ("0712345678".data)⟩

theorem noHeadSpace_nil : NoHeadSpace [] := by
  intro a ha
  simp at ha

theorem noHeadSpace_cons (c : Char) (l : Str) (hc : isSpace c = false) :
    NoHeadSpace (c :: l) := by
  intro a ha
  simp only [List.head?_cons, Option.some.injEq] at ha
  rw [← ha]
  exact hc

theorem noLastSpace_nil : NoLastSpace [] := noHeadSpace_nil

theorem dropWhile_eq_self_of (l : Str) (h : NoHeadSpace l) : l.dropWhile isSpace = l := by
  cases l with
  | nil => rfl
  | cons c t =>
    have hc : isSpace c = false := h c rfl
    simp [List.dropWhile_cons, hc]

theorem noHeadSpace_dropWhile (l : Str) : NoHeadSpace (l.dropWhile isSpace) := by
  induction l with
  | nil => exact noHeadSpace_nil
  | cons c t ih =>
    by_cases hc : isSpace c = true
    · simpa [List.dropWhile_cons, hc] using ih
    · rw [Bool.not_eq_true] at hc
      rw [List.dropWhile_cons, if_neg (by rw [hc]; exact Bool.false_ne_true)]
      exact noHeadSpace_cons c t hc

theorem rstrip_decomp (x : Str) :
    rstrip x ++ (x.reverse.takeWhile isSpace).reverse = x := by
  rw [rstrip, ← List.reverse_append, List.takeWhile_append_dropWhile, List.reverse_reverse]

theorem noHeadSpace_rstrip (x : Str) (h : NoHeadSpace x) : NoHeadSpace (rstrip x) := by
  intro a ha
  have hd := rstrip_decomp x
  cases hr : rstrip x with
  | nil => rw [hr] at ha; simp at ha
  | cons b t =>
    rw [hr] at ha hd
    simp only [List.head?_cons, Option.some.injEq] at ha
    apply h a
    rw [← hd, ← ha]
    rfl

theorem noLastSpace_rstrip (x : Str) : NoLastSpace (rstrip x) := by
  intro a ha
  have hrev : (rstrip x).reverse = x.reverse.dropWhile isSpace := by
    rw [rstrip, List.reverse_reverse]
  rw [hrev] at ha
  exact noHeadSpace_dropWhile x.reverse a ha

theorem rstrip_eq_self (x : Str) (h : NoLastSpace x) : rstrip x = x := by
  rw [rstrip, dropWhile_eq_self_of x.reverse h, List.reverse_reverse]

theorem strip_eq_self (x : Str) (h1 : NoHeadSpace x) (h2 : NoLastSpace x) : strip x = x := by
  rw [strip, lstrip, dropWhile_eq_self_of x h1, rstrip_eq_self x h2]

theorem noHeadSpace_strip (x : Str) : NoHeadSpace (strip x) :=
  noHeadSpace_rstrip _ (noHeadSpace_dropWhile x)

theorem noLastSpace_strip (x : Str) : NoLastSpace (strip x) := noLastSpace_rstrip _

theorem noLastSpace_append (x u : Str) (hx : NoLastSpace x) (hu : NoLastSpace u) :
    NoLastSpace (x ++ u) := by
  intro a ha
  rw [List.reverse_append] at ha
  cases hu2 : u.reverse with
  | nil =>
    rw [hu2, List.nil_append] at ha
    exact hx a ha
  | cons b t =>
    rw [hu2] at ha
    simp only [List.cons_append, List.head?_cons, Option.some.injEq] at ha
    apply hu a
    rw [hu2, ha]
    rfl

theorem noLastSpace_of_append (x u : Str) (h : NoLastSpace (x ++ u)) : NoLastSpace u := by
  intro a ha
  apply h a
  rw [List.reverse_append]
  cases hu2 : u.reverse with
  | nil => rw [hu2] at ha; simp at ha
  | cons b t =>
    rw [hu2] at ha
    simp only [List.head?_cons, Option.some.injEq] at ha
    rw [ha]
    rfl

theorem noLastSpace_single (c : Char) (hc : isSpace c = false) : NoLastSpace [c] := by
  intro a ha
  simp only [List.reverse_cons, List.reverse_nil, List.nil_append, List.head?_cons,
    Option.some.injEq] at ha
  rw [← ha]
  exact hc

theorem noLastSpace_cons (c : Char) (m : Str) (hc : isSpace c = false)
    (hm : NoLastSpace m) : NoLastSpace (c :: m) :=
  noLastSpace_append [c] m (noLastSpace_single c hc) hm

theorem noLastSpace_254 : NoLastSpace ("254".data) := by
  intro a ha
  have hrev : ("254".data).reverse = "452".data := by decide
  rw [hrev] at ha
  simp only [List.head?_cons, Option.some.injEq] at ha
  rw [← ha]
  decide

theorem startswith_cons_elim (a : Char) (pre s : Str) (h : startswith (a :: pre) s = true) :
    ∃ u, s = a :: u ∧ startswith pre u = true := by
  cases s with
  | nil => simp [startswith, List.isPrefixOf] at h
  | cons b u =>
    have hh : (a == b && List.isPrefixOf pre u) = true := h
    rw [Bool.and_eq_true, beq_iff_eq] at hh
    exact ⟨u, by rw [hh.1], hh.2⟩

theorem startswith_cons_ne (a c : Char) (pre u : Str) (h : (a == c) = false) :
    startswith (a :: pre) (c :: u) = false := by
  have : startswith (a :: pre) (c :: u) = (a == c && List.isPrefixOf pre u) := rfl
  rw [this, h, Bool.false_and]

theorem lookupCC_eq (c : Option Str) (cc : Str) (h : lookupCC c = some cc) :
    cc = "254".data := by
  cases c with
  | none => exact absurd h (by simp [lookupCC])
  | some k =>
    by_cases hk : k = "KE".data
    · subst hk
      have hv : lookupCC (some ("KE".data)) = some ("254".data) := by decide
      rw [hv] at h
      exact (Option.some.inj h).symm
    · exfalso
      have hbeq : (k == "KE".data) = false := by
        rw [beq_eq_false_iff_ne]
        exact hk
      rw [lookupCC, COUNTRY_CODES] at h
      simp [List.lookup, hbeq] at h

theorem countryStep_none (p : Str) (c : Option Str) (b : Bool) (h : lookupCC c = none) :
    countryStep p c b = (p, b, false) := by
  rw [countryStep, h]

theorem countryStep_some (p : Str) (c : Option Str) (b : Bool) (cc : Str)
    (h : lookupCC c = some cc) :
    countryStep p c b =
      if guardA p then ('+' :: (cc ++ p.drop 1), b, true)
      else if guardB cc p then ('+' :: p, b, true)
      else if guardC p then ('+' :: (cc ++ p), b, true)
      else (p, b, false) := by
  rw [countryStep, h]

theorem countryStep_plus (m : Str) (c : Option Str) (b : Bool) :
    countryStep ('+' :: m) c b = ('+' :: m, b, false) := by
  cases hc : lookupCC c with
  | none => exact countryStep_none _ c b hc
  | some cc =>
    have hcc := lookupCC_eq c cc hc
    subst hcc
    rw [countryStep_some _ c b _ hc]
    have hA : guardA ('+' :: m) = false := by
      rw [guardA, startswith_cons_ne '0' '+' [] m (by decide), Bool.false_and]
    have hB : guardB ("254".data) ('+' :: m) = false := by
      rw [guardB]
      have hsw : startswith ("254".data) ('+' :: m) = false :=
        startswith_cons_ne '2' '+' ("54".data) m (by decide)
      rw [show startswith ("254".data) ('+' :: m) = startswith ('2' :: "54".data) ('+' :: m)
        from rfl] at hsw
      rw [show ("254".data : Str) = '2' :: "54".data from rfl, hsw, Bool.false_and]
    have hC : guardC ('+' :: m) = false := by
      rw [guardC, startswith_cons_ne '7' '+' [] m (by decide), Bool.false_and]
    rw [if_neg (by rw [hA]; exact Bool.false_ne_true),
      if_neg (by rw [hB]; exact Bool.false_ne_true),
      if_neg (by rw [hC]; exact Bool.false_ne_true)]

theorem noCountryRule_none (c : Option Str) (p : Str) (h : lookupCC c = none) :
    noCountryRule c p = true := by
  rw [noCountryRule, h]

theorem noCountryRule_some (c : Option Str) (cc p : Str) (h : lookupCC c = some cc) :
    noCountryRule c p = !(guardA p || guardB cc p || guardC p) := by
  rw [noCountryRule, h]

theorem countryStep_n00 (p : Str) (c : Option Str) (b : Bool) :
    (countryStep p c b).2.1 = b := by
  cases hc : lookupCC c with
  | none => rw [countryStep_none p c b hc]
  | some cc =>
    rw [countryStep_some p c b cc hc]
    by_cases hA : guardA p = true
    · rw [if_pos hA]
    · rw [if_neg hA]
      by_cases hB : guardB cc p = true
      · rw [if_pos hB]
      · rw [if_neg hB]
        by_cases hC : guardC p = true
        · rw [if_pos hC]
        · rw [if_neg hC]

theorem countryStep_none_fired (p : Str) (c : Option Str) (b : Bool)
    (h : noCountryRule c p = true) : countryStep p c b = (p, b, false) := by
  cases hc : lookupCC c with
  | none => exact countryStep_none p c b hc
  | some cc =>
    rw [noCountryRule, hc, Bool.not_eq_true', Bool.or_eq_false_iff, Bool.or_eq_false_iff] at h
    obtain ⟨⟨hA, hB⟩, hC⟩ := h
    rw [countryStep_some p c b cc hc,
      if_neg (by rw [hA]; exact Bool.false_ne_true),
      if_neg (by rw [hB]; exact Bool.false_ne_true),
      if_neg (by rw [hC]; exact Bool.false_ne_true)]

theorem step00_pos (s : Str) (h : startswith ['0', '0'] s = true) :
    step00 s = ('+' :: s.drop 2, true) := by
  rw [step00, if_pos h]

theorem step00_neg (s : Str) (h : startswith ['0', '0'] s = false) :
    step00 s = (s, false) := by
  rw [step00, if_neg (by rw [h]; exact Bool.false_ne_true)]

theorem normalize_phone_ne_nil (p : Str) (c : Option Str) (hp : p ≠ []) :
    normalize_phone p c = countryStep (step00 (strip p)).1 c (step00 (strip p)).2 := by
  rw [normalize_phone, if_neg hp]

theorem normalize_phone_nil (c : Option Str) :
    normalize_phone [] c = ([], false, false) := rfl

theorem normalize_plus (m : Str) (c : Option Str) (h : NoLastSpace m) :
    normalize_phone ('+' :: m) c = ('+' :: m, false, false) := by
  rw [normalize_phone_ne_nil _ c (by simp)]
  have hstrip : strip ('+' :: m) = '+' :: m :=
    strip_eq_self _ (noHeadSpace_cons '+' m (by decide)) (noLastSpace_cons '+' m (by decide) h)
  rw [hstrip, step00_neg _ (startswith_cons_ne '0' '+' ['0'] m (by decide))]
  exact countryStep_plus m c false

theorem normalize_stable (p : Str) (c : Option Str) (hstrip : strip p = p)
    (h00 : startswith ['0', '0'] p = false) (hnc : noCountryRule c p = true) :
    normalize_phone p c = (p, false, false) := by
  by_cases hp : p = []
  · subst hp
    rfl
  · rw [normalize_phone_ne_nil p c hp, hstrip, step00_neg p h00,
      countryStep_none_fired p c false hnc]

theorem guardA_head (p : Str) (h : guardA p = true) : ∃ u, p = '0' :: u := by
  rw [guardA, Bool.and_eq_true] at h
  obtain ⟨u, hu, _⟩ := startswith_cons_elim '0' [] p h.1
  exact ⟨u, hu⟩

theorem guardB254_head (p : Str) (h : guardB ("254".data) p = true) : ∃ u, p = '2' :: u := by
  rw [guardB, Bool.and_eq_true] at h
  have h1 : startswith ('2' :: "54".data) p = true := h.1
  obtain ⟨u, hu, _⟩ := startswith_cons_elim '2' ("54".data) p h1
  exact ⟨u, hu⟩

theorem guardC_head (p : Str) (h : guardC p = true) : ∃ u, p = '7' :: u := by
  rw [guardC, Bool.and_eq_true] at h
  obtain ⟨u, hu, _⟩ := startswith_cons_elim '7' [] p h.1
  exact ⟨u, hu⟩

theorem normalize_phone_idem (p : Str) (c : Option Str) :
    normalize_phone ((normalize_phone p c).1) c = ((normalize_phone p c).1, false, false) := by
  by_cases hp : p = []
  · subst hp
    rfl
  · have hsl : NoHeadSpace (strip p) := noHeadSpace_strip p
    have hsr : NoLastSpace (strip p) := noLastSpace_strip p
    rw [normalize_phone_ne_nil p c hp]
    by_cases h00 : startswith ['0', '0'] (strip p) = true
    · obtain ⟨u0, hu0, h00b⟩ := startswith_cons_elim '0' ['0'] (strip p) h00
      obtain ⟨u, hu, _⟩ := startswith_cons_elim '0' [] u0 h00b
      have hsp : strip p = ['0', '0'] ++ u := by rw [hu0, hu]; rfl
      have hdrop : (strip p).drop 2 = u := by rw [hsp]; rfl
      have husuf : NoLastSpace u := noLastSpace_of_append ['0', '0'] u (hsp ▸ hsr)
      simp only [step00_pos _ h00, hdrop, countryStep_plus]
      exact normalize_plus u c husuf
    · rw [Bool.not_eq_true] at h00
      simp only [step00_neg _ h00]
      cases hc : lookupCC c with
      | none =>
        simp only [countryStep_none _ c false hc]
        exact normalize_stable (strip p) c (strip_eq_self _ hsl hsr) h00
          (by rw [noCountryRule, hc])
      | some cc =>
        have hcc := lookupCC_eq c cc hc
        subst hcc
        rw [countryStep_some _ c false _ hc]
        by_cases hA : guardA (strip p) = true
        · rw [if_pos hA]
          obtain ⟨u, hu⟩ := guardA_head _ hA
          have hdrop : (strip p).drop 1 = u := by rw [hu]; rfl
          have hsp1 : strip p = ['0'] ++ u := by rw [hu]; rfl
          have husuf : NoLastSpace u := noLastSpace_of_append ['0'] u (hsp1 ▸ hsr)
          simp only [hdrop]
          show normalize_phone ('+' :: ("254".data ++ u)) c =
            ('+' :: ("254".data ++ u), false, false)
          exact normalize_plus _ c (noLastSpace_append _ _ noLastSpace_254 husuf)
        · rw [if_neg hA]
          by_cases hB : guardB ("254".data) (strip p) = true
          · rw [if_pos hB]
            exact normalize_plus _ c hsr
          · rw [if_neg hB]
            by_cases hC : guardC (strip p) = true
            · rw [if_pos hC]
              exact normalize_plus _ c (noLastSpace_append _ _ noLastSpace_254 hsr)
            · rw [if_neg hC]
              rw [Bool.not_eq_true] at hA hB hC
              exact normalize_stable (strip p) c (strip_eq_self _ hsl hsr) h00
                (by rw [noCountryRule_some c _ _ hc, hA, hB, hC]; rfl)

theorem normalize_not_both (p : Str) (c : Option Str) :
    ¬((normalize_phone p c).2.1 = true ∧ (normalize_phone p c).2.2 = true) := by
  rintro ⟨h1, h2⟩
  by_cases hp : p = []
  · subst hp
    simp [normalize_phone_nil] at h1
  · rw [normalize_phone_ne_nil p c hp] at h1 h2
    by_cases h00 : startswith ['0', '0'] (strip p) = true
    · simp only [step00_pos _ h00, countryStep_plus] at h2
      exact Bool.false_ne_true h2
    · rw [Bool.not_eq_true] at h00
      simp only [step00_neg _ h00, countryStep_n00] at h1
      exact Bool.false_ne_true h1

theorem normalize_fired_plus (p : Str) (c : Option Str)
    (h : (normalize_phone p c).2.1 = true ∨ (normalize_phone p c).2.2 = true) :
    ∃ m, (normalize_phone p c).1 = '+' :: m := by
  by_cases hp : p = []
  · exfalso
    subst hp
    rcases h with h | h <;> simp [normalize_phone_nil] at h
  · rw [normalize_phone_ne_nil p c hp] at h ⊢
    by_cases h00 : startswith ['0', '0'] (strip p) = true
    · simp only [step00_pos _ h00, countryStep_plus]
      exact ⟨(strip p).drop 2, rfl⟩
    · rw [Bool.not_eq_true] at h00
      simp only [step00_neg _ h00] at h ⊢
      cases hc : lookupCC c with
      | none =>
        exfalso
        simp only [countryStep_none _ c false hc] at h
        rcases h with h | h <;> exact Bool.false_ne_true h
      | some cc =>
        rw [countryStep_some _ c false _ hc] at h ⊢
        by_cases hA : guardA (strip p) = true
        · rw [if_pos hA]
          exact ⟨_, rfl⟩
        · rw [if_neg hA] at h ⊢
          by_cases hB : guardB cc (strip p) = true
          · rw [if_pos hB]
            exact ⟨_, rfl⟩
          · rw [if_neg hB] at h ⊢
            by_cases hC : guardC (strip p) = true
            · rw [if_pos hC]
              exact ⟨_, rfl⟩
            · exfalso
              rw [if_neg hC] at h
              rcases h with h | h <;> exact Bool.false_ne_true h

theorem process_dedupe_mem (o : Options) (st : RunState) (c : RawContact)
    (hd : o.dedupe = true) (hm : (normOf o c).1 ∈ st.seen) :
    processContact o st c = { bumpCounters o st c with dupes := st.dupes + 1 } := by
  rw [processContact, if_pos hd, if_pos hm]

theorem process_dedupe_new (o : Options) (st : RunState) (c : RawContact)
    (hd : o.dedupe = true) (hm : (normOf o c).1 ∉ st.seen) :
    processContact o st c =
      { bumpCounters o st c with
        seen := (normOf o c).1 :: st.seen,
        out := st.out ++ [emitRecord o (rawFirst c) (rawLast c) (normOf o c).1],
        written := st.written + 1 } := by
  rw [processContact, if_pos hd, if_neg hm]

theorem process_plain (o : Options) (st : RunState) (c : RawContact)
    (hd : o.dedupe = false) :
    processContact o st c =
      { bumpCounters o st c with
        out := st.out ++ [emitRecord o (rawFirst c) (rawLast c) (normOf o c).1],
        written := st.written + 1 } := by
  rw [processContact, if_neg (by rw [hd]; exact Bool.false_ne_true)]

theorem process_written_dupes (o : Options) (st : RunState) (c : RawContact) :
    (processContact o st c).written + (processContact o st c).dupes
      = st.written + st.dupes + 1 := by
  by_cases hd : o.dedupe = true
  · by_cases hm : (normOf o c).1 ∈ st.seen
    · rw [process_dedupe_mem o st c hd hm]
      show st.written + (st.dupes + 1) = st.written + st.dupes + 1
      omega
    · rw [process_dedupe_new o st c hd hm]
      show st.written + 1 + st.dupes = st.written + st.dupes + 1
      omega
  · rw [Bool.not_eq_true] at hd
    rw [process_plain o st c hd]
    show st.written + 1 + st.dupes = st.written + st.dupes + 1
    omega

theorem foldl_written_dupes (o : Options) (cs : List RawContact) :
    ∀ st : RunState,
      (cs.foldl (processContact o) st).written + (cs.foldl (processContact o) st).dupes
        = st.written + st.dupes + cs.length := by
  induction cs with
  | nil => intro st; simp
  | cons c t ih =>
    intro st
    rw [List.foldl_cons, ih (processContact o st c), process_written_dupes,
      List.length_cons]
    omega

theorem process_plain_dupes (o : Options) (st : RunState) (c : RawContact)
    (hd : o.dedupe = false) : (processContact o st c).dupes = st.dupes := by
  rw [process_plain o st c hd]
  rfl

theorem foldl_dupes_plain (o : Options) (cs : List RawContact) (hd : o.dedupe = false) :
    ∀ st : RunState, (cs.foldl (processContact o) st).dupes = st.dupes := by
  induction cs with
  | nil => intro st; rfl
  | cons c t ih =>
    intro st
    rw [List.foldl_cons, ih, process_plain_dupes o st c hd]

theorem foldl_invariant {σ α : Type} (f : σ → α → σ) (P : σ → Prop)
    (hstep : ∀ s a, P s → P (f s a)) :
    ∀ (l : List α) (s : σ), P s → P (l.foldl f s) := by
  intro l
  induction l with
  | nil => intro s hs; exact hs
  | cons a t ih =>
    intro s hs
    rw [List.foldl_cons]
    exact ih _ (hstep s a hs)

theorem process_outlen (o : Options) (st : RunState) (c : RawContact)
    (h : st.out.length = st.written) :
    (processContact o st c).out.length = (processContact o st c).written := by
  by_cases hd : o.dedupe = true
  · by_cases hm : (normOf o c).1 ∈ st.seen
    · rw [process_dedupe_mem o st c hd hm]
      exact h
    · rw [process_dedupe_new o st c hd hm]
      show (st.out ++ [emitRecord o (rawFirst c) (rawLast c) (normOf o c).1]).length
        = st.written + 1
      rw [List.length_append, h]
      rfl
  · rw [Bool.not_eq_true] at hd
    rw [process_plain o st c hd]
    show (st.out ++ [emitRecord o (rawFirst c) (rawLast c) (normOf o c).1]).length
      = st.written + 1
    rw [List.length_append, h]
    rfl

theorem runTransform_outlen (o : Options) (cs : List RawContact) :
    (runTransform o cs).out.length = (runTransform o cs).written :=
  foldl_invariant (processContact o) (fun st => st.out.length = st.written)
    (fun st c hst => process_outlen o st c hst) cs initState rfl

theorem phone_emit (o : Options) (f l p : Str) :
    phoneOfRecord o.format (emitRecord o f l p) = p := by
  cases hf : o.format with
  | csv =>
    simp only [emitRecord, phoneOfRecord, hf]
    rw [csvRow, List.getLast?_concat]
    rfl
  | vcf =>
    simp only [emitRecord, phoneOfRecord, hf]
    have h4 : (vcfBlock f l p)[4]? = some (telHead ++ p) := rfl
    rw [h4]
    show (telHead ++ p).drop telHead.length = p
    exact List.drop_left telHead p

theorem process_dedupinv (o : Options) (st : RunState) (c : RawContact)
    (hd : o.dedupe = true)
    (h1 : (st.out.map (phoneOfRecord o.format)).Nodup)
    (h2 : ∀ q ∈ st.out.map (phoneOfRecord o.format), q ∈ st.seen) :
    ((processContact o st c).out.map (phoneOfRecord o.format)).Nodup ∧
      ∀ q ∈ (processContact o st c).out.map (phoneOfRecord o.format),
        q ∈ (processContact o st c).seen := by
  by_cases hm : (normOf o c).1 ∈ st.seen
  · rw [process_dedupe_mem o st c hd hm]
    exact ⟨h1, h2⟩
  · rw [process_dedupe_new o st c hd hm]
    have hmap : (st.out ++ [emitRecord o (rawFirst c) (rawLast c) (normOf o c).1]).map
        (phoneOfRecord o.format)
        = st.out.map (phoneOfRecord o.format) ++ [(normOf o c).1] := by
      rw [List.map_append]
      simp [phone_emit]
    constructor
    · show ((st.out ++ [emitRecord o (rawFirst c) (rawLast c) (normOf o c).1]).map
        (phoneOfRecord o.format)).Nodup
      rw [hmap, List.nodup_append]
      refine ⟨h1, List.nodup_singleton _, ?_⟩
      intro a ha hb
      rw [List.mem_singleton] at hb
      exact hm (hb ▸ h2 a ha)
    · intro q hq
      have hq2 : q ∈ st.out.map (phoneOfRecord o.format) ++ [(normOf o c).1] := by
        rw [← hmap]
        exact hq
      show q ∈ (normOf o c).1 :: st.seen
      rcases List.mem_append.mp hq2 with h | h
      · exact List.mem_cons_of_mem _ (h2 q h)
      · rw [List.mem_singleton] at h
        rw [h]
        exact List.mem_cons_self _ _

theorem runTransform_nodup (o : Options) (cs : List RawContact) (hd : o.dedupe = true) :
    ((runTransform o cs).out.map (phoneOfRecord o.format)).Nodup := by
  have h := foldl_invariant (processContact o)
    (fun st => (st.out.map (phoneOfRecord o.format)).Nodup ∧
      ∀ q ∈ st.out.map (phoneOfRecord o.format), q ∈ st.seen)
    (fun st c hc => process_dedupinv o st c hd hc.1 hc.2)
    cs initState ⟨by simp [initState], by simp [initState]⟩
  exact h.1

theorem process_seen (o : Options) (st : RunState) (c : RawContact) (hd : o.dedupe = true) :
    (processContact o st c).seen =
      if (normOf o c).1 ∈ st.seen then st.seen else (normOf o c).1 :: st.seen := by
  by_cases hm : (normOf o c).1 ∈ st.seen
  · rw [process_dedupe_mem o st c hd hm, if_pos hm]
    rfl
  · rw [process_dedupe_new o st c hd hm, if_neg hm]

theorem foldl_seen_char (o : Options) (hd : o.dedupe = true) (cs : List RawContact) :
    ∀ (st : RunState) (q : Str),
      q ∈ (cs.foldl (processContact o) st).seen ↔
        q ∈ st.seen ∨ ∃ c2 ∈ cs, (normOf o c2).1 = q := by
  induction cs with
  | nil => intro st q; simp
  | cons c t ih =>
    intro st q
    rw [List.foldl_cons, ih (processContact o st c) q, process_seen o st c hd]
    by_cases hm : (normOf o c).1 ∈ st.seen
    · rw [if_pos hm]
      constructor
      · rintro (hq | ⟨c2, hc2, hq2⟩)
        · exact Or.inl hq
        · exact Or.inr ⟨c2, List.mem_cons_of_mem c hc2, hq2⟩
      · rintro (hq | ⟨c2, hc2, hq2⟩)
        · exact Or.inl hq
        · rcases List.mem_cons.mp hc2 with h | h
          · exact Or.inl (by rw [← hq2, h]; exact hm)
          · exact Or.inr ⟨c2, h, hq2⟩
    · rw [if_neg hm]
      constructor
      · rintro (hq | ⟨c2, hc2, hq2⟩)
        · rcases List.mem_cons.mp hq with h | h
          · exact Or.inr ⟨c, List.mem_cons_self c t, h.symm⟩
          · exact Or.inl h
        · exact Or.inr ⟨c2, List.mem_cons_of_mem c hc2, hq2⟩
      · rintro (hq | ⟨c2, hc2, hq2⟩)
        · exact Or.inl (List.mem_cons_of_mem _ hq)
        · rcases List.mem_cons.mp hc2 with h | h
          · exact Or.inl (by rw [← hq2, h]; exact List.mem_cons_self _ _)
          · exact Or.inr ⟨c2, h, hq2⟩

/-- Claim C1: over any run, written plus duplicates equals the number of input
contacts; with dedupe disabled written equals the total and duplicates are
zero; with dedupe enabled no two written records carry the same normalized
phone. -/
theorem claim1_dedupe_counts (o : Options) (cs : List RawContact) :
    (runTransform o cs).written + (runTransform o cs).dupes = cs.length ∧
    (o.dedupe = false →
      (runTransform o cs).written = cs.length ∧ (runTransform o cs).dupes = 0) ∧
    (o.dedupe = true →
      ((runTransform o cs).out.map (phoneOfRecord o.format)).Nodup) := by
  have hsum : (runTransform o cs).written + (runTransform o cs).dupes = cs.length := by
    have h := foldl_written_dupes o cs initState
    simpa [runTransform, initState] using h
  refine ⟨hsum, ?_, ?_⟩
  · intro hd
    have hdup : (runTransform o cs).dupes = 0 := by
      have h := foldl_dupes_plain o cs hd initState
      simpa [runTransform, initState] using h
    exact ⟨by omega, hdup⟩
  · intro hd
    exact runTransform_nodup o cs hd

/-- Witness for claim C1: a run of two no-phone contacts under each setting. -/
theorem claim1_dedupe_counts_witness :
    ((runTransform oDedupe [cEmpty, cEmpty]).out.map (phoneOfRecord oDedupe.format)).Nodup ∧
    (runTransform oPlain [cEmpty, cEmpty]).written = 2 ∧
    (runTransform oPlain [cEmpty, cEmpty]).dupes = 0 :=
  ⟨(claim1_dedupe_counts oDedupe [cEmpty, cEmpty]).2.2 rfl,
   (claim1_dedupe_counts oPlain [cEmpty, cEmpty]).2.1 rfl⟩

/-- Claim C2: with a country present in the table, the three country rules are
checked in the order (a), (b), (c), the first match wins and yields the
described string, at most one rule fires, and the two quoted evaluations
hold. -/
theorem claim2_country_rules :
    normalize_phone ("254712345678".data) (some ("KE".data)) =
      ("+254712345678".data, false, true) ∧
    normalize_phone ("712345678".data) (some ("KE".data)) =
      ("+254712345678".data, false, true) ∧
    (∀ (t : Str) (c : Option Str) (cc : Str) (b : Bool), lookupCC c = some cc →
      (guardA t = true → countryStep t c b = ('+' :: (cc ++ t.drop 1), b, true)) ∧
      (guardA t = false → guardB cc t = true → countryStep t c b = ('+' :: t, b, true)) ∧
      (guardA t = false → guardB cc t = false → guardC t = true →
        countryStep t c b = ('+' :: (cc ++ t), b, true)) ∧
      (guardA t = false → guardB cc t = false → guardC t = false →
        countryStep t c b = (t, b, false))) ∧
    (∀ (t : Str) (c : Option Str) (cc : Str), lookupCC c = some cc →
      ¬(guardA t = true ∧ guardB cc t = true) ∧
      ¬(guardA t = true ∧ guardC t = true) ∧
      ¬(guardB cc t = true ∧ guardC t = true)) := by
  refine ⟨by decide, by decide, ?_, ?_⟩
  · intro t c cc b h
    refine ⟨fun hA => ?_, fun hA hB => ?_, fun hA hB hC => ?_, fun hA hB hC => ?_⟩
    · rw [countryStep_some t c b cc h, if_pos hA]
    · rw [countryStep_some t c b cc h,
        if_neg (by rw [hA]; exact Bool.false_ne_true), if_pos hB]
    · rw [countryStep_some t c b cc h,
        if_neg (by rw [hA]; exact Bool.false_ne_true),
        if_neg (by rw [hB]; exact Bool.false_ne_true), if_pos hC]
    · rw [countryStep_some t c b cc h,
        if_neg (by rw [hA]; exact Bool.false_ne_true),
        if_neg (by rw [hB]; exact Bool.false_ne_true),
        if_neg (by rw [hC]; exact Bool.false_ne_true)]
  · intro t c cc h
    have hcc := lookupCC_eq c cc h
    subst hcc
    refine ⟨?_, ?_, ?_⟩
    · rintro ⟨hA, hB⟩
      obtain ⟨u, hu⟩ := guardA_head t hA
      obtain ⟨v, hv⟩ := guardB254_head t hB
      rw [hu] at hv
      injection hv with h1 h2
      exact absurd h1 (by decide)
    · rintro ⟨hA, hC⟩
      obtain ⟨u, hu⟩ := guardA_head t hA
      obtain ⟨v, hv⟩ := guardC_head t hC
      rw [hu] at hv
      injection hv with h1 h2
      exact absurd h1 (by decide)
    · rintro ⟨hB, hC⟩
      obtain ⟨u, hu⟩ := guardB254_head t hB
      obtain ⟨v, hv⟩ := guardC_head t hC
      rw [hu] at hv
      injection hv with h1 h2
      exact absurd h1 (by decide)

/-- Witness for claim C2: rule (a) applied to a concrete leading-zero phone. -/
theorem claim2_country_rules_witness :
    countryStep ("0712345678".data) (some ("KE".data)) false =
      ("+254712345678".data, false, true) := by
  have h := (claim2_country_rules.2.2.1 ("0712345678".data) (some ("KE".data))
    ("254".data) false (by decide)).1 (by decide)
  rw [h]
  decide

/-- Claim C3: normalize is idempotent: running it again on its own output with
the same country returns the output unchanged with both flags false. -/
theorem claim3_idempotent (p : Str) (c : Option Str) :
    normalize_phone ((normalize_phone p c).1) c = ((normalize_phone p c).1, false, false) :=
  normalize_phone_idem p c

/-- Claim C4 fails as stated: a phone with leading whitespace starts with
neither 00 nor any country rule, yet normalize trims it, so the returned
string differs from the input. -/
theorem claim4_cex :
    startswith ['0', '0'] (' ' :: "123".data) = false ∧
    noCountryRule none (' ' :: "123".data) = true ∧
    normalize_phone (' ' :: "123".data) none = ("123".data, false, false) ∧
    (' ' :: "123".data : Str) ≠ "123".data := by
  decide

/-- Claim C4 amended: for phones carrying no leading or trailing whitespace
that start with neither 00 nor any applicable country rule, normalize returns
the input unchanged with both flags false. -/
theorem claim4_amended (p : Str) (c : Option Str) (h1 : strip p = p)
    (h2 : startswith ['0', '0'] p = false) (h3 : noCountryRule c p = true) :
    normalize_phone p c = (p, false, false) :=
  normalize_stable p c h1 h2 h3

/-- Witness for the amended claim C4 on a short plain phone. -/
theorem claim4_amended_witness :
    normalize_phone ("12".data) none = ("12".data, false, false) :=
  claim4_amended ("12".data) none (by decide) (by decide) (by decide)

/-- Claim C5 fails as stated: with an empty first name the code strips only
the ends of the whole FN line, keeping the interior space after the colon,
so the line reads FN: Doe rather than FN:Doe. -/
theorem claim5_cex :
    (vcfBlock [] ("Doe".data) ("123".data))[3]? = some ("FN: Doe".data) ∧
    ("FN: Doe".data : Str) ≠ "FN:Doe".data := by
  decide

/-- Claim C5 amended: the FN line is the text FN: followed by the first name,
a space, and the last name, with whitespace stripped at both ends of the
whole line; an empty last name yields FN:first, while an empty first name
yields FN: last, the space after the colon being interior and hence kept. -/
theorem claim5_amended (f l p : Str) :
    (vcfBlock f l p)[3]? = some (strip ("FN:".data ++ f ++ ' ' :: l)) ∧
    (vcfBlock ("John".data) [] p)[3]? = some ("FN:John".data) ∧
    (vcfBlock [] ("Doe".data) p)[3]? = some ("FN: Doe".data) := by
  refine ⟨rfl, rfl, rfl⟩

/-- Claim C6 fails in one part: the two flags can never both be true, because
the 00 rule leaves a plus-led string that no country rule matches. -/
theorem claim6_cex : NeverBothFlags := normalize_not_both

/-- Claim C6 amended: the 00 rule applies before the country rules and the
country rules inspect the mutated string, the quoted evaluation holds, and
the two flags are never both true in a single call. -/
theorem claim6_amended :
    normalize_phone ("0041791234567".data) (some ("KE".data)) =
      ("+41791234567".data, true, false) ∧
    ∀ (p : Str) (c : Option Str),
      ¬((normalize_phone p c).2.1 = true ∧ (normalize_phone p c).2.2 = true) :=
  ⟨by decide, normalize_not_both⟩

/-- Claim C7: when the contacts-list lookup fails, the run ends fatally and no
completed outcome with output records is produced; the structural check comes
before the output destination. -/
theorem claim7_structure_check (o : Options) (data : Json)
    (h : contactsList data = none) :
    mainModel o data = MainOutcome.fatal ∧
      ∀ (out : List (List Str)) (st : RunState),
        mainModel o data ≠ MainOutcome.completed out st := by
  have hm : mainModel o data = MainOutcome.fatal := by
    rw [mainModel, h]
  refine ⟨hm, ?_⟩
  intro out st hcon
  rw [hm] at hcon
  exact MainOutcome.noConfusion hcon

/-- Witness for claim C7: a document whose contacts object has no list key. -/
theorem claim7_structure_check_witness :
    mainModel oPlain (Json.jobj [("contacts".data, Json.jobj [])]) = MainOutcome.fatal :=
  (claim7_structure_check oPlain (Json.jobj [("contacts".data, Json.jobj [])]) rfl).1

/-- Claim C8: exactly one CSV header row precedes the data rows, holding First
Name and Last Name exactly for the matching name modes and Phone always last,
so its length is the enabled name column count plus one; the number of
emitted records equals written in either format. -/
theorem claim8_header_blocks (o : Options) (cs : List RawContact) :
    csvOutput o cs = csvHeader o.name_mode :: (runTransform o cs).out ∧
    (csvHeader o.name_mode).length = enabledNameCols o.name_mode + 1 ∧
    (("First Name".data ∈ csvHeader o.name_mode) ↔
      (o.name_mode = NameMode.first ∨ o.name_mode = NameMode.both)) ∧
    (("Last Name".data ∈ csvHeader o.name_mode) ↔
      (o.name_mode = NameMode.last ∨ o.name_mode = NameMode.both)) ∧
    (csvHeader o.name_mode).getLast? = some ("Phone".data) ∧
    (runTransform o cs).out.length = (runTransform o cs).written := by
  refine ⟨rfl, ?_, ?_, ?_, ?_, runTransform_outlen o cs⟩ <;> cases o.name_mode <;> decide

/-- Witness for claim C8: header membership and record count on a small run. -/
theorem claim8_header_blocks_witness :
    "First Name".data ∈ csvHeader NameMode.first ∧
    (runTransform oPlain [cEmpty]).out.length = (runTransform oPlain [cEmpty]).written :=
  ⟨((claim8_header_blocks ⟨NameMode.first, none, false, Format.csv⟩ []).2.2.1).mpr
      (Or.inl rfl),
   (claim8_header_blocks oPlain [cEmpty]).2.2.2.2.2⟩

/-- Claim C9: whenever a normalization flag is reported true, the returned
phone starts with a plus sign. -/
theorem claim9_plus_head (p : Str) (c : Option Str)
    (h : (normalize_phone p c).2.1 = true ∨ (normalize_phone p c).2.2 = true) :
    ∃ m, (normalize_phone p c).1 = '+' :: m :=
  normalize_fired_plus p c h

/-- Witness for claim C9 at a phone firing the leading-zero country rule. -/
theorem claim9_plus_head_witness :
    ∃ m, (normalize_phone ("0712345678".data) (some ("KE".data))).1 = '+' :: m :=
  claim9_plus_head ("0712345678".data) (some ("KE".data)) (Or.inr (by decide))

/-- Claim C10: with dedupe enabled, contacts normalizing to the empty phone
are keyed like any other value: the first such contact is emitted and counted
as written, and each later one only increments duplicates and emits nothing. -/
theorem claim10_empty_phone (o : Options) (cs1 : List RawContact) (c : RawContact)
    (stB stA : RunState) (hd : o.dedupe = true)
    (hB : stB = cs1.foldl (processContact o) initState)
    (hA : stA = processContact o stB c)
    (hphi : (normOf o c).1 = []) :
    ((∃ c2 ∈ cs1, (normOf o c2).1 = []) →
      stA.dupes = stB.dupes + 1 ∧ stA.out = stB.out ∧ stA.written = stB.written) ∧
    ((∀ c2 ∈ cs1, (normOf o c2).1 ≠ []) →
      stA.written = stB.written + 1 ∧
      stA.out = stB.out ++ [emitRecord o (rawFirst c) (rawLast c) []]) := by
  have hseen : (([] : Str) ∈ stB.seen) ↔ ∃ c2 ∈ cs1, (normOf o c2).1 = [] := by
    rw [hB, foldl_seen_char o hd cs1 initState []]
    simp [initState]
  constructor
  · intro hex
    have hmem : (normOf o c).1 ∈ stB.seen := by
      rw [hphi]
      exact hseen.mpr hex
    subst hA
    rw [process_dedupe_mem o stB c hd hmem]
    exact ⟨rfl, rfl, rfl⟩
  · intro hall
    have hmem : (normOf o c).1 ∉ stB.seen := by
      rw [hphi]
      intro hin
      obtain ⟨c2, h1, h2⟩ := hseen.mp hin
      exact hall c2 h1 h2
    subst hA
    rw [process_dedupe_new o stB c hd hmem]
    refine ⟨rfl, ?_⟩
    show stB.out ++ [emitRecord o (rawFirst c) (rawLast c) (normOf o c).1]
      = stB.out ++ [emitRecord o (rawFirst c) (rawLast c) []]
    rw [hphi]

/-- Witness for claim C10: a second contact with no phone is a duplicate. -/
theorem claim10_empty_phone_witness :
    (processContact oDedupe (List.foldl (processContact oDedupe) initState [cEmpty]) cEmpty).dupes
      = (List.foldl (processContact oDedupe) initState [cEmpty]).dupes + 1 ∧
    (processContact oDedupe (List.foldl (processContact oDedupe) initState [cEmpty]) cEmpty).out
      = (List.foldl (processContact oDedupe) initState [cEmpty]).out := by
  have h := (claim10_empty_phone oDedupe [cEmpty] cEmpty
    (List.foldl (processContact oDedupe) initState [cEmpty])
    (processContact oDedupe (List.foldl (processContact oDedupe) initState [cEmpty]) cEmpty)
    rfl rfl rfl (by decide)).1 ⟨cEmpty, by simp, by decide⟩
  exact ⟨h.1, h.2.1⟩

end TgContacts
